import Mathlib

/-!
Verification development for the tool-call resolution and dispatch engine of
the `k8s_mcp` repository (`agent.py`).  The Python functions `parse_tool_call`,
`call_tool`, `get_tools`, and the dispatch portion of `main` are shallowly
embedded as executable Lean definitions over `List Char`.  Python values that
flow through the extractor (JSON values and coerced argument tokens) are
modelled by `PyVal`; Python floats are modelled as exact rationals, which is
faithful on every decimal literal the code manipulates.
-/

/-- Model of the Python values produced by `json.loads` and by the argument
coercion code: integers, floats (as exact rationals), strings, booleans,
`None`, lists and dicts (as key/value lists in insertion order). -/
inductive PyVal where
  | int (n : Int)
  | float (q : Rat)
  | str (s : String)
  | bool (b : Bool)
  | null
  | list (xs : List PyVal)
  | dict (kvs : List (String × PyVal))

/-- The single-quote character, written via its code point. -/
def squote : Char := Char.ofNat 39

/-- Identifier characters of the marker regex `[A-Za-z0-9_]`. -/
def isIdentChar (c : Char) : Bool := c.isAlpha || c.isDigit || c = '_'

/-- The characters matched by the regex class `\s` (ASCII part, which is all
the code ever meets): space, tab, newline, carriage return, vertical tab,
form feed.  Also used for Python `str.strip()`. -/
def pyIsSpace (c : Char) : Bool :=
  c = ' ' || c = '\t' || c = '\n' || c = '\r' || c = Char.ofNat 11 || c = Char.ofNat 12

/-- JSON whitespace as skipped by `json.loads`. -/
def jWS (c : Char) : Bool := c = ' ' || c = '\t' || c = '\n' || c = '\r'

/-- Python `"." in p`. -/
def containsDot (s : List Char) : Bool := s.any (fun c => c = '.')

/-- The characters stripped by `p.strip("\"' ")`. -/
def isQuoteSpace (c : Char) : Bool := c = '"' || c = squote || c = ' '

/-- Match a literal pattern at the head of the input; on success return the
rest of the input (the regex engine's way of consuming a literal). -/
def matchLit : List Char → List Char → Option (List Char)
  | [], s => some s
  | _ :: _, [] => none
  | p :: ps, c :: cs => if p = c then matchLit ps cs else none

/-- Case-insensitive variant of `matchLit`, for `re.IGNORECASE`. -/
def matchLitCI : List Char → List Char → Option (List Char)
  | [], s => some s
  | _ :: _, [] => none
  | p :: ps, c :: cs => if p.toLower = c.toLower then matchLitCI ps cs else none

/-- `re.search` semantics: try the match attempt `f` at every start position,
left to right, and return the first success. -/
def searchPos (f : List Char → Option α) : List Char → Option α
  | [] => f []
  | c :: cs =>
    match f (c :: cs) with
    | some r => some r
    | none => searchPos f cs

/-- Substring containment (Python `needle in hay`). -/
def containsSub (needle : List Char) : List Char → Bool
  | [] => (matchLit needle []).isSome
  | c :: t => (matchLit needle (c :: t)).isSome || containsSub needle t

/-- Python `raw.split(sep)` for a one-character separator: split on every
occurrence, keeping empty pieces. -/
def splitOn (sep : Char) : List Char → List (List Char)
  | [] => [[]]
  | c :: cs =>
    if c = sep then [] :: splitOn sep cs
    else
      match splitOn sep cs with
      | t :: ts => (c :: t) :: ts
      | [] => [[c]]

/-- Strip characters satisfying `f` from both ends of a list. -/
def stripEnds (f : Char → Bool) (s : List Char) : List Char :=
  ((s.dropWhile f).reverse.dropWhile f).reverse

/-- Python `str.strip()` (whitespace strip). -/
def pyStrip (s : List Char) : List Char := stripEnds pyIsSpace s

/-- Python `p.strip("\"' ")`: strip double quotes, single quotes and spaces. -/
def stripQuoteSpace (s : List Char) : List Char := stripEnds isQuoteSpace s

/-- Prefix of `l` up to and including the last occurrence of `ch`, when there
is one.  Models the greedy `.*` before the final literal of a regex. -/
def takeUpToLast (ch : Char) (l : List Char) : Option (List Char) :=
  if l.contains ch then some ((l.reverse.dropWhile (fun c => ¬ (c = ch))).reverse)
  else none

/-- Decimal digit characters (used both by the printers in the round-trip
statements and by the decoders). -/
def digitChar (d : Nat) : Char :=
  if d = 0 then '0' else if d = 1 then '1' else if d = 2 then '2'
  else if d = 3 then '3' else if d = 4 then '4' else if d = 5 then '5'
  else if d = 6 then '6' else if d = 7 then '7' else if d = 8 then '8' else '9'

/-- Numeric value of a list of decimal digit characters, most significant
first (the value computation shared by `int()` and the JSON number parser). -/
def digitsToNat (ds : List Char) : Nat :=
  ds.foldl (fun a c => 10 * a + (c.toNat - 48)) 0

/-- `10^e` over the rationals for an integer exponent (used for float
values with an exponent part). -/
def pow10 : Int → Rat
  | .ofNat n => (10 : Rat) ^ n
  | .negSucc n => 1 / (10 : Rat) ^ (n + 1)

/-- The rational value denoted by a decimal literal: sign times the digit
string (integer and fraction digits concatenated) scaled down by the
fraction length, times ten to the exponent. -/
def ratVal (sign : Rat) (ds : List Char) (fracLen : Nat) (e : Int) : Rat :=
  sign * ((digitsToNat ds : Rat) / (10 : Rat) ^ fracLen) * pow10 e

/-- One or more decimal digits, with single underscores allowed between
digit groups (as Python's `int()`/`float()` accept); returns the digits with
underscores removed, and the rest.  Returns `([], s)` when `s` does not start
with a digit. -/
def takeDigitsUF : Nat → List Char → List Char × List Char
  | 0, s => ([], s)
  | fuel + 1, s =>
    let ds := s.takeWhile Char.isDigit
    if ds = [] then ([], s)
    else
      let r := s.dropWhile Char.isDigit
      match r with
      | '_' :: c2 :: r2 =>
        if c2.isDigit then
          let p := takeDigitsUF fuel (c2 :: r2)
          (ds ++ p.1, p.2)
        else (ds, r)
      | _ => (ds, r)

/-- Entry point for the underscore-digit scanner; the fuel bounds the number
of underscore-separated groups, which is at most the input length. -/
def takeDigitsU (s : List Char) : List Char × List Char :=
  takeDigitsUF (s.length + 1) s

/-- Model of Python `int(p)` on a string: optional surrounding whitespace,
optional sign, decimal digits with underscores between digit groups.
`none` models a raised `ValueError`.  (Non-ASCII digits are not modelled.) -/
def pyInt (s : List Char) : Option Int :=
  match s.dropWhile pyIsSpace with
  | [] => none
  | c :: r =>
    let si : Int × List Char := if c = '-' then (-1, r) else if c = '+' then (1, r) else (1, c :: r)
    let p := takeDigitsU si.2
    if p.1 = [] then none
    else if p.2.dropWhile pyIsSpace = [] then some (si.1 * (digitsToNat p.1 : Int))
    else none

/-- Exponent part of a Python float literal: `e`/`E`, optional sign, digits
(with underscores).  Returns the exponent and the rest, consuming nothing
when the exponent shape is absent. -/
def pyExpo : List Char → Option Int × List Char
  | [] => (none, [])
  | c :: r =>
    if c = 'e' ∨ c = 'E' then
      match r with
      | [] => (none, c :: r)
      | c2 :: r2 =>
        let s2 : Int × List Char :=
          if c2 = '+' then (1, r2) else if c2 = '-' then (-1, r2) else (1, c2 :: r2)
        let p := takeDigitsU s2.2
        if p.1 = [] then (none, c :: r)
        else (some (s2.1 * (digitsToNat p.1 : Int)), p.2)
    else (none, c :: r)

/-- Model of Python `float(p)` on a string: optional surrounding whitespace,
optional sign, `digits [. digits] | . digits`, optional exponent; underscores
allowed between digits.  The value is the exact rational the literal denotes
(the IEEE rounding of `float` is not modelled; every literal the claims touch
is exactly representable).  The `inf`/`nan` words are not modelled: the code
only reaches `float()` on tokens containing a decimal point. -/
def pyFloat (s : List Char) : Option Rat :=
  match s.dropWhile pyIsSpace with
  | [] => none
  | c :: r =>
    let si : Rat × List Char := if c = '-' then (-1, r) else if c = '+' then (1, r) else (1, c :: r)
    let ip := takeDigitsU si.2
    let fr : List Char × List Char :=
      match ip.2 with
      | '.' :: r2 => takeDigitsU r2
      | _ => ([], ip.2)
    if ip.1 = [] ∧ fr.1 = [] then none
    else
      let ex := pyExpo fr.2
      if ex.2.dropWhile pyIsSpace = [] then
        some (ratVal si.1 (ip.1 ++ fr.1) fr.1.length (ex.1.getD 0))
      else none

/-- Hexadecimal digit value, for `\uXXXX` escapes. -/
def hexVal (c : Char) : Option Nat :=
  if c.isDigit then some (c.toNat - 48)
  else if 'a' ≤ c ∧ c ≤ 'f' then some (c.toNat - 87)
  else if 'A' ≤ c ∧ c ≤ 'F' then some (c.toNat - 55)
  else none

/-- Body of a JSON string after the opening quote: returns the decoded
characters and the rest after the closing quote.  Escapes are decoded as
`json.loads` does; raw control characters are rejected (strict mode).  Lone
surrogate escapes are not modelled (they fail here). -/
def jStringBody : List Char → Option (List Char × List Char)
  | [] => none
  | c :: r =>
    if c = '"' then some ([], r)
    else if c = '\\' then
      match r with
      | [] => none
      | e :: r2 =>
        if e = '"' then (jStringBody r2).map (fun p => ('"' :: p.1, p.2))
        else if e = '\\' then (jStringBody r2).map (fun p => ('\\' :: p.1, p.2))
        else if e = '/' then (jStringBody r2).map (fun p => ('/' :: p.1, p.2))
        else if e = 'b' then (jStringBody r2).map (fun p => (Char.ofNat 8 :: p.1, p.2))
        else if e = 'f' then (jStringBody r2).map (fun p => (Char.ofNat 12 :: p.1, p.2))
        else if e = 'n' then (jStringBody r2).map (fun p => ('\n' :: p.1, p.2))
        else if e = 'r' then (jStringBody r2).map (fun p => ('\r' :: p.1, p.2))
        else if e = 't' then (jStringBody r2).map (fun p => ('\t' :: p.1, p.2))
        else if e = 'u' then
          match r2 with
          | h1 :: h2 :: h3 :: h4 :: r3 =>
            match hexVal h1, hexVal h2, hexVal h3, hexVal h4 with
            | some a, some b, some c', some d =>
              let v := 4096 * a + 256 * b + 16 * c' + d
              if v < 55296 ∨ 57343 < v then
                (jStringBody r3).map (fun p => (Char.ofNat v :: p.1, p.2))
              else if v < 56320 then
                match r3 with
                | '\\' :: 'u' :: g1 :: g2 :: g3 :: g4 :: r4 =>
                  match hexVal g1, hexVal g2, hexVal g3, hexVal g4 with
                  | some a2, some b2, some c2, some d2 =>
                    let w := 4096 * a2 + 256 * b2 + 16 * c2 + d2
                    if 56320 ≤ w ∧ w ≤ 57343 then
                      (jStringBody r4).map
                        (fun p => (Char.ofNat (65536 + (v - 55296) * 1024 + (w - 56320)) :: p.1, p.2))
                    else none
                  | _, _, _, _ => none
                | _ => none
              else none
            | _, _, _, _ => none
          | _ => none
        else none
    else if c.toNat < 32 then none
    else (jStringBody r).map (fun p => (c :: p.1, p.2))

/-- Integer part of a JSON number: `0 | [1-9][0-9]*` (after the sign). -/
def jNumBody : List Char → Option (List Char × List Char)
  | [] => none
  | c :: r =>
    if c = '0' then some (['0'], r)
    else if c.isDigit then some ((c :: r).takeWhile Char.isDigit, (c :: r).dropWhile Char.isDigit)
    else none

/-- Fraction part of a JSON number: `. [0-9]+`, or nothing (consuming
nothing when the shape is absent, like the regex's optional group). -/
def jFrac : List Char → List Char × List Char
  | [] => ([], [])
  | c :: r =>
    if c = '.' then
      let ds := r.takeWhile Char.isDigit
      if ds = [] then ([], c :: r) else (ds, r.dropWhile Char.isDigit)
    else ([], c :: r)

/-- Exponent part of a JSON number: `[eE][+-]?[0-9]+`, or nothing. -/
def jExp : List Char → Option Int × List Char
  | [] => (none, [])
  | c :: r =>
    if c = 'e' ∨ c = 'E' then
      match r with
      | [] => (none, c :: r)
      | c2 :: r2 =>
        let s2 : Int × List Char :=
          if c2 = '+' then (1, r2) else if c2 = '-' then (-1, r2) else (1, c2 :: r2)
        let ds := s2.2.takeWhile Char.isDigit
        if ds = [] then (none, c :: r)
        else (some (s2.1 * (digitsToNat ds : Int)), s2.2.dropWhile Char.isDigit)
    else (none, c :: r)

/-- JSON number parser: produces `PyVal.int` when there is no fraction and no
exponent, `PyVal.float` otherwise, exactly as `json.loads` chooses between
Python `int` and `float`. -/
def jNum (s : List Char) : Option (PyVal × List Char) :=
  match s with
  | [] => none
  | c :: r =>
    let si : Int × List Char := if c = '-' then (-1, r) else (1, c :: r)
    match jNumBody si.2 with
    | none => none
    | some (ip, r1) =>
      let fr := jFrac r1
      let ex := jExp fr.2
      match fr.1, ex.1 with
      | [], none => some (.int (si.1 * (digitsToNat ip : Int)), ex.2)
      | _, _ =>
        some (.float (ratVal (si.1 : Rat) (ip ++ fr.1) fr.1.length (ex.1.getD 0)), ex.2)

mutual

/-- JSON value parser (model of the recursive descent done by `json.loads`);
the fuel dominates the nesting depth and element counts and is instantiated
with the input length, which always suffices.  The non-standard
`NaN`/`Infinity` extensions of Python's decoder are not modelled. -/
def jValue : Nat → List Char → Option (PyVal × List Char)
  | 0, _ => none
  | fuel + 1, s0 =>
    match s0.dropWhile jWS with
    | [] => none
    | c :: r =>
      if c = '{' then jObj fuel r
      else if c = '[' then jArr fuel r
      else if c = '"' then (jStringBody r).map (fun p => (PyVal.str (String.mk p.1), p.2))
      else if c = 't' then
        match r with
        | 'r' :: 'u' :: 'e' :: r2 => some (.bool true, r2)
        | _ => none
      else if c = 'f' then
        match r with
        | 'a' :: 'l' :: 's' :: 'e' :: r2 => some (.bool false, r2)
        | _ => none
      else if c = 'n' then
        match r with
        | 'u' :: 'l' :: 'l' :: r2 => some (.null, r2)
        | _ => none
      else jNum (c :: r)

/-- JSON array parser, after the opening `[`. -/
def jArr : Nat → List Char → Option (PyVal × List Char)
  | 0, _ => none
  | fuel + 1, r =>
    match r.dropWhile jWS with
    | [] => none
    | c :: r2 =>
      if c = ']' then some (.list [], r2)
      else
        match jArrElems fuel (c :: r2) with
        | some (vs, r3) => some (.list vs, r3)
        | none => none

/-- One or more comma-separated JSON array elements, then the closing `]`. -/
def jArrElems : Nat → List Char → Option (List PyVal × List Char)
  | 0, _ => none
  | fuel + 1, s =>
    match jValue fuel s with
    | none => none
    | some (v, rest) =>
      match rest.dropWhile jWS with
      | [] => none
      | c :: r2 =>
        if c = ',' then
          match jArrElems fuel r2 with
          | some (vs, r3) => some (v :: vs, r3)
          | none => none
        else if c = ']' then some ([v], r2)
        else none

/-- JSON object parser, after the opening `{`. -/
def jObj : Nat → List Char → Option (PyVal × List Char)
  | 0, _ => none
  | fuel + 1, r =>
    match r.dropWhile jWS with
    | [] => none
    | c :: r2 =>
      if c = '}' then some (.dict [], r2)
      else
        match jMembers fuel (c :: r2) with
        | some (kvs, r3) => some (.dict kvs, r3)
        | none => none

/-- One or more `"key": value` members, then the closing `}`. -/
def jMembers : Nat → List Char → Option (List (String × PyVal) × List Char)
  | 0, _ => none
  | fuel + 1, s =>
    match s.dropWhile jWS with
    | '"' :: r =>
      match jStringBody r with
      | none => none
      | some (k, r2) =>
        match r2.dropWhile jWS with
        | ':' :: r3 =>
          match jValue fuel r3 with
          | none => none
          | some (v, r4) =>
            match r4.dropWhile jWS with
            | ',' :: r5 =>
              match jMembers fuel r5 with
              | some (kvs, r6) => some ((String.mk k, v) :: kvs, r6)
              | none => none
            | '}' :: r5 => some ([(String.mk k, v)], r5)
            | _ => none
        | _ => none
    | _ => none

end

/-- Model of `json.loads`: parse one JSON value and require only whitespace
after it (`json.loads` raises on extra data). -/
def pyJsonLoads (s : List Char) : Option PyVal :=
  match jValue (s.length + 1) s with
  | some (v, rest) => if rest.dropWhile jWS = [] then some v else none
  | none => none

/-- Python `dict.get` on the parsed member list: for duplicate keys the later
binding wins, as in a Python dict built by the JSON decoder. -/
def pyDictGet (kvs : List (String × PyVal)) (k : String) : Option PyVal :=
  kvs.foldl (fun acc kv => if kv.1 = k then some kv.2 else acc) none

/-- Match attempt for `re.search(r"call_tool:([A-Za-z0-9_]+)", response)` at
one position: the literal `call_tool:` followed by a non-empty greedy run of
identifier characters (the captured group). -/
def tryToolName (s : List Char) : Option (List Char) :=
  match matchLit "call_tool:".data s with
  | none => none
  | some rest =>
    let ident := rest.takeWhile isIdentChar
    if ident = [] then none else some ident

/-- `re.search` for the tool-name pattern (agent.py line 82). -/
def searchToolName (s : List Char) : Option (List Char) :=
  searchPos tryToolName s

/-- Match attempt for `re.search(r"with arguments:\s*(\[[^\]]*\])", response,
re.IGNORECASE)` at one position; returns the captured bracketed literal.
The greedy `\s*` and `[^\]]*` are deterministic because their character
classes are disjoint from the characters that must follow. -/
def tryListMatch (s : List Char) : Option (List Char) :=
  match matchLitCI "with arguments:".data s with
  | none => none
  | some rest =>
    match rest.dropWhile pyIsSpace with
    | '[' :: r2 =>
      match r2.dropWhile (fun c => ¬ (c = ']')) with
      | ']' :: _ => some ('[' :: (r2.takeWhile (fun c => ¬ (c = ']')) ++ [']']))
      | _ => none
    | _ => none

/-- The captured group of the bracketed-list regex, when it matches
(agent.py line 89). -/
def listCapture (response : List Char) : Option (List Char) :=
  searchPos tryListMatch response

/-- Strategy 1 of `parse_tool_call` (agent.py lines 89-96): JSON-list style.
Returns the parsed argument list; `none` both when the regex does not match
and when `json.loads` fails, in which case the code falls through.  The
captured text always starts with `[`, so a successful parse is a list. -/
def listStyleArgs (response : List Char) : Option (List PyVal) :=
  match listCapture response with
  | none => none
  | some lit =>
    match pyJsonLoads lit with
    | some (.list xs) => some xs
    | _ => none

/-- Argument coercion applied to each comma-separated token of the
parenthesized style (agent.py lines 105-112): a token containing a decimal
point is parsed as a float; otherwise an integer parse is attempted; a failed
parse silently yields the token with quotes and spaces stripped. -/
def coerceToken (p : List Char) : PyVal :=
  if containsDot p then
    match pyFloat p with
    | some q => .float q
    | none => .str (String.mk (stripQuoteSpace p))
  else
    match pyInt p with
    | some n => .int n
    | none => .str (String.mk (stripQuoteSpace p))

/-- Match attempt for `re.search(r"call_tool:[A-Za-z0-9_]+\s*\(([^)]*)\)",
response)` at one position; returns the captured group (the text between the
parentheses). -/
def tryParenMatch (s : List Char) : Option (List Char) :=
  match matchLit "call_tool:".data s with
  | none => none
  | some rest =>
    let ident := rest.takeWhile isIdentChar
    if ident = [] then none
    else
      match (rest.dropWhile isIdentChar).dropWhile pyIsSpace with
      | '(' :: r2 =>
        match r2.dropWhile (fun c => ¬ (c = ')')) with
        | ')' :: _ => some (r2.takeWhile (fun c => ¬ (c = ')')))
        | _ => none
      | _ => none

/-- Strategy 2 of `parse_tool_call` (agent.py lines 98-114): parentheses
style.  Only the first regex match is considered; an empty (or all-space)
interior falls through to the next strategy, as `if raw:` does. -/
def parenStyleArgs (response : List Char) : Option (List PyVal) :=
  match searchPos tryParenMatch response with
  | none => none
  | some content =>
    let raw := pyStrip content
    if raw = [] then none
    else some (((((splitOn ',' raw).map pyStrip).filter (fun t => ¬ (t = []))).map coerceToken))

/-- Match attempt for `re.search(r"(\{.*\"args\".*\})", response, re.DOTALL)`
at one position: a `{`, with an occurrence of `"args"` somewhere after it
that is followed by a later `}`.  Both `.*` are greedy, so the capture ends
at the last `}` of the input (which the `re.DOTALL` flag lets `.` reach
across newlines). -/
def tryObjMatch (s : List Char) : Option (List Char) :=
  match s with
  | [] => none
  | c :: rest =>
    if c = '{' then
      match takeUpToLast '}' rest with
      | some pre =>
        if containsSub "\"args\"".data pre.dropLast then some ('{' :: pre) else none
      | none => none
    else none

/-- Strategy 3 of `parse_tool_call` (agent.py lines 116-127): JSON object
style.  The captured text starts with `{`, so a successful parse is a dict;
the `args` entry is used only when it is a list, otherwise fall through. -/
def jsonObjStyleArgs (response : List Char) : Option (List PyVal) :=
  match searchPos tryObjMatch response with
  | none => none
  | some raw =>
    match pyJsonLoads raw with
    | some (.dict kvs) =>
      match pyDictGet kvs "args" with
      | some (.list xs) => some xs
      | _ => none
    | _ => none

/-- Match attempt for one number of `re.findall(r"-?\d+\.?\d*", response)`:
optional minus, one or more digits, optional dot, optional digits; returns
the matched token and the rest of the input. -/
def tryNumTok (s : List Char) : Option (List Char × List Char) :=
  match s with
  | [] => none
  | c :: r =>
    let si : List Char × List Char := if c = '-' then (['-'], r) else ([], c :: r)
    let ds := si.2.takeWhile Char.isDigit
    if ds = [] then none
    else
      match si.2.dropWhile Char.isDigit with
      | '.' :: r3 =>
        some (si.1 ++ ds ++ '.' :: r3.takeWhile Char.isDigit, r3.dropWhile Char.isDigit)
      | r2 => some (si.1 ++ ds, r2)

/-- `re.findall` scan: left to right, non-overlapping, resuming after each
match; the fuel is the input length (every step consumes at least one
character). -/
def findNumbersF : Nat → List Char → List (List Char)
  | 0, _ => []
  | fuel + 1, s =>
    match s with
    | [] => []
    | c :: r =>
      match tryNumTok (c :: r) with
      | some (tok, rest) => tok :: findNumbersF fuel rest
      | none => findNumbersF fuel r

/-- All numeric substrings of the response, in order of appearance
(agent.py line 130). -/
def findNumbers (s : List Char) : List (List Char) := findNumbersF s.length s

/-- Conversion of one `findall` token (agent.py line 134): `float(n)` when it
contains a dot, else `int(n)`.  Tokens produced by the scanner always parse,
so the `getD` defaults are never reached. -/
def numToken (t : List Char) : PyVal :=
  if containsDot t then .float ((pyFloat t).getD 0) else .int ((pyInt t).getD 0)

/-- The argument-extraction chain of `parse_tool_call` after the marker has
been found (agent.py lines 89-138): the four early-return strategies in their
fixed priority order, then the numeric fallback, then the empty default.
Factoring the early returns into a first-success chain is the direct
translation of the Python control flow. -/
def extractArgs (response : List Char) : List PyVal :=
  match listStyleArgs response with
  | some args => args
  | none =>
    match parenStyleArgs response with
    | some args => args
    | none =>
      match jsonObjStyleArgs response with
      | some args => args
      | none =>
        let numbers := findNumbers response
        if 2 ≤ numbers.length then numbers.map numToken else []

/-- Model of `parse_tool_call` (agent.py lines 74-138) on a character list:
`(none, none)` for an empty response or when the marker pattern is absent;
otherwise the captured tool name together with the extracted arguments. -/
def parse_tool_callL (response : List Char) : Option String × Option (List PyVal) :=
  match response with
  | [] => (none, none)
  | c :: cs =>
    match searchToolName (c :: cs) with
    | none => (none, none)
    | some nm => (some (String.mk nm), some (extractArgs (c :: cs)))

/-- `parse_tool_call` on a Lean string. -/
def parse_tool_call (response : String) : Option String × Option (List PyVal) :=
  parse_tool_callL response.data

/-- Whether the marker pattern `call_tool:<identifier>` occurs at the head of
the input (spec-side formulation used to state marker absence). -/
def markerAt (s : List Char) : Bool :=
  match matchLit "call_tool:".data s with
  | none => false
  | some [] => false
  | some (d :: _) => isIdentChar d

/-- Whether the marker pattern occurs anywhere in the text. -/
def hasToolMarker : List Char → Bool
  | [] => false
  | c :: rest => markerAt (c :: rest) || hasToolMarker rest

/-- A tool entry as used by `main`: the fields of the registry dicts that the
dispatch code reads (`t["name"]`, `t["description"]`, `t["endpoint"]`). -/
structure ToolInfo where
  name : String
  description : String
  endpoint : String

/-- The observable outcome of one dispatch decision in `main` (agent.py lines
197-217): print the model text as a direct answer, warn that the tool name
could not be parsed (and print the text), warn that the tool is unknown (no
network call happens), or invoke a tool endpoint with a payload. -/
inductive TurnAction where
  | assistant (text : String)
  | parseFailed (text : String)
  | toolNotFound (name : String)
  | invokeTool (endpoint : String) (payload : Option (List (String × PyVal)))

/-- Payload construction of `main` (agent.py lines 209-214): `None` (no body)
for an empty argument list; otherwise `{"args": args}`, plus the convenience
keys `a`/`b` when there are at least two arguments. -/
def buildPayload : List PyVal → Option (List (String × PyVal))
  | [] => none
  | [a] => some [("args", .list [a])]
  | a :: b :: rest => some [("args", .list (a :: b :: rest)), ("a", a), ("b", b)]

/-- The dispatch decision of one turn of `main` (agent.py lines 197-217),
given the registry snapshot and the model response. -/
def respondStep (tools : List ToolInfo) (llm_response : String) : TurnAction :=
  if ¬ (llm_response.data = []) ∧ containsSub "call_tool:".data llm_response.data = true then
    match parse_tool_call llm_response with
    | (none, _) => .parseFailed llm_response
    | (some tool_name, argsOpt) =>
      match tools.find? (fun t => t.name = tool_name) with
      | none => .toolNotFound tool_name
      | some t => .invokeTool t.endpoint (buildPayload (argsOpt.getD []))
  else .assistant llm_response

/-- Model of `call_tool` (agent.py lines 55-72): the network interaction
(POST, `raise_for_status`, `r.json()`) is abstracted as an oracle from the
payload to either a parsed JSON body or a raised exception's message; every
exception is caught and converted to `{"error": str(e)}`, so the function is
total and never propagates a fault. -/
def call_tool (post : Option (List (String × PyVal)) → Except String PyVal)
    (payload : Option (List (String × PyVal))) : PyVal :=
  match post payload with
  | .ok v => v
  | .error e => .dict [("error", .str e)]

/-- Model of `get_tools` (agent.py lines 21-30): the discovery request is
abstracted as an oracle; an unreachable discovery source (any exception) is
caught and yields the empty tool list, and a reachable one yields
`r.json().get("tools", [])`. -/
def get_tools (net : Except String PyVal) : PyVal :=
  match net with
  | .error _ => .list []
  | .ok v =>
    match v with
    | .dict kvs => (pyDictGet kvs "tools").getD (.list [])
    | _ => .list []

/-- Decimal printer for naturals (spec-side, for the round-trip statement). -/
def encodeNat (n : Nat) : List Char :=
  if n < 10 then [digitChar n] else encodeNat (n / 10) ++ [digitChar (n % 10)]
  decreasing_by exact Nat.div_lt_self (by omega) (by omega)

/-- Decimal printer for integers. -/
def encodeInt (n : Int) : List Char :=
  if n < 0 then '-' :: encodeNat n.natAbs else encodeNat n.natAbs

/-- Comma-and-space separated encoding of the elements of an integer list. -/
def sepElems : List Int → List Char
  | [] => []
  | [x] => encodeInt x
  | x :: y :: ys => encodeInt x ++ ',' :: ' ' :: sepElems (y :: ys)

/-- JSON array literal for an integer list, in the textual form the spec
describes (`[3, 5]`). -/
def encodeIntList (l : List Int) : List Char := '[' :: sepElems l ++ [']']

/-- The marker text encoding an arbitrary numeric argument array in the
`with arguments:` textual form (spec-side encoder for the round-trip). -/
def argText (l : List Int) : List Char :=
  "call_tool:".data ++ "add_numbers".data ++ ' ' ::
    ("with arguments:".data ++ ' ' :: encodeIntList l)

lemma matchLit_append (p : List Char) : ∀ s, matchLit p (p ++ s) = some s := by
  induction p with
  | nil => intro s; rfl
  | cons c cs ih => intro s; simp [matchLit, ih]

lemma matchLitCI_append (p : List Char) : ∀ s, matchLitCI p (p ++ s) = some s := by
  induction p with
  | nil => intro s; rfl
  | cons c cs ih => intro s; simp [matchLitCI, ih]

lemma takeWhile_all {p : Char → Bool} : ∀ {xs : List Char}, (∀ c ∈ xs, p c = true) →
    xs.takeWhile p = xs := by
  intro xs
  induction xs with
  | nil => intro _; rfl
  | cons c cs ih =>
    intro h
    have hc : p c = true := h c (List.mem_cons_self c cs)
    simp [List.takeWhile_cons, hc, ih (fun d hd => h d (List.mem_cons_of_mem c hd))]

lemma takeWhile_append_stop {p : Char → Bool} {xs : List Char} {y : Char} (ys : List Char)
    (hxs : ∀ c ∈ xs, p c = true) (hy : p y = false) :
    (xs ++ y :: ys).takeWhile p = xs := by
  induction xs with
  | nil => simp [List.takeWhile_cons, hy]
  | cons c cs ih =>
    have hc : p c = true := hxs c (List.mem_cons_self c cs)
    simp [List.takeWhile_cons, hc]
    exact ih (fun d hd => hxs d (List.mem_cons_of_mem c hd))

lemma dropWhile_append_stop {p : Char → Bool} {xs : List Char} {y : Char} (ys : List Char)
    (hxs : ∀ c ∈ xs, p c = true) (hy : p y = false) :
    (xs ++ y :: ys).dropWhile p = y :: ys := by
  induction xs with
  | nil => simp [List.dropWhile_cons, hy]
  | cons c cs ih =>
    have hc : p c = true := hxs c (List.mem_cons_self c cs)
    simp [List.dropWhile_cons, hc]
    exact ih (fun d hd => hxs d (List.mem_cons_of_mem c hd))

lemma dropWhile_all_append {p : Char → Bool} {xs : List Char} (t : List Char)
    (hxs : ∀ c ∈ xs, p c = true) :
    (xs ++ t).dropWhile p = t.dropWhile p := by
  induction xs with
  | nil => rfl
  | cons c cs ih =>
    have hc : p c = true := hxs c (List.mem_cons_self c cs)
    simp [List.dropWhile_cons, hc]
    exact ih (fun d hd => hxs d (List.mem_cons_of_mem c hd))

lemma searchPos_here {f : List Char → Option α} {s : List Char} {r : α}
    (h : f s = some r) : searchPos f s = some r := by
  cases s with
  | nil => simpa [searchPos] using h
  | cons c cs => simp [searchPos, h]

lemma searchPos_cons_none {f : List Char → Option α} {c : Char} {cs : List Char}
    (h : f (c :: cs) = none) : searchPos f (c :: cs) = searchPos f cs := by
  simp [searchPos, h]

lemma searchPos_skip {f : List Char → Option α} {a : List Char} (b : List Char)
    (h : ∀ c ∈ a, ∀ t, f (c :: t) = none) :
    searchPos f (a ++ b) = searchPos f b := by
  induction a with
  | nil => rfl
  | cons c cs ih =>
    have hc := h c (List.mem_cons_self c cs) (cs ++ b)
    rw [List.cons_append, searchPos_cons_none hc]
    exact ih (fun d hd t => h d (List.mem_cons_of_mem c hd) t)

lemma digitChar_isDigit (d : Nat) : (digitChar d).isDigit = true := by
  unfold digitChar
  split_ifs <;> decide

lemma digitChar_toNat (d : Nat) (h : d < 10) : (digitChar d).toNat = 48 + d := by
  unfold digitChar
  split_ifs with h0 h1 h2 h3 h4 h5 h6 h7 h8
  · subst h0; decide
  · subst h1; decide
  · subst h2; decide
  · subst h3; decide
  · subst h4; decide
  · subst h5; decide
  · subst h6; decide
  · subst h7; decide
  · subst h8; decide
  · have : d = 9 := by omega
    subst this; decide

lemma digitChar_ne_zero {d : Nat} (h : ¬ (d = 0)) : ¬ (digitChar d = '0') := by
  unfold digitChar
  split_ifs with h0 <;> first | exact absurd h0 h | decide

lemma digit_ne {d c : Char} (hd : d.isDigit = true) (hc : c.isDigit = false) : ¬ (d = c) := by
  intro e
  rw [e, hc] at hd
  exact Bool.noConfusion hd

lemma digit_not_jWS {d : Char} (hd : d.isDigit = true) : jWS d = false := by
  have h1 := digit_ne hd (show (' ').isDigit = false by decide)
  have h2 := digit_ne hd (show ('\t').isDigit = false by decide)
  have h3 := digit_ne hd (show ('\n').isDigit = false by decide)
  have h4 := digit_ne hd (show ('\r').isDigit = false by decide)
  simp [jWS, h1, h2, h3, h4]

lemma digitsToNat_append_digit (xs : List Char) (c : Char) :
    digitsToNat (xs ++ [c]) = 10 * digitsToNat xs + (c.toNat - 48) := by
  simp [digitsToNat, List.foldl_append]

lemma encodeNat_lt {n : Nat} (h : n < 10) : encodeNat n = [digitChar n] := by
  rw [encodeNat, if_pos h]

lemma encodeNat_ge {n : Nat} (h : ¬ n < 10) :
    encodeNat n = encodeNat (n / 10) ++ [digitChar (n % 10)] := by
  rw [encodeNat, if_neg h]

lemma encodeNat_ne_nil (n : Nat) : ¬ (encodeNat n = []) := by
  by_cases h : n < 10
  · rw [encodeNat_lt h]; simp
  · rw [encodeNat_ge h]; simp

lemma encodeNat_all_digit (n : Nat) : ∀ c ∈ encodeNat n, c.isDigit = true := by
  induction n using Nat.strong_induction_on with
  | _ n ih =>
    by_cases h : n < 10
    · rw [encodeNat_lt h]
      intro c hc
      rw [List.mem_singleton] at hc
      rw [hc]; exact digitChar_isDigit n
    · rw [encodeNat_ge h]
      intro c hc
      rcases List.mem_append.mp hc with h1 | h2
      · exact ih (n / 10) (Nat.div_lt_self (by omega) (by omega)) c h1
      · rw [List.mem_singleton] at h2
        rw [h2]; exact digitChar_isDigit (n % 10)

lemma digitsToNat_encodeNat (n : Nat) : digitsToNat (encodeNat n) = n := by
  induction n using Nat.strong_induction_on with
  | _ n ih =>
    by_cases h : n < 10
    · rw [encodeNat_lt h]
      simp [digitsToNat, digitChar_toNat n h]
    · rw [encodeNat_ge h, digitsToNat_append_digit,
        ih (n / 10) (Nat.div_lt_self (by omega) (by omega)),
        digitChar_toNat (n % 10) (by omega)]
      omega

lemma encodeNat_head_ne_zero (n : Nat) (hn : 0 < n) :
    ∀ d ds, encodeNat n = d :: ds → ¬ (d = '0') := by
  induction n using Nat.strong_induction_on with
  | _ n ih =>
    intro d ds hEq
    by_cases h : n < 10
    · rw [encodeNat_lt h] at hEq
      have hd : d = digitChar n := by
        injection hEq with h1 _
        exact h1.symm
      rw [hd]
      exact digitChar_ne_zero (by omega)
    · rw [encodeNat_ge h] at hEq
      rcases he : encodeNat (n / 10) with _ | ⟨d', ds'⟩
      · exact absurd he (encodeNat_ne_nil (n / 10))
      · rw [he, List.cons_append] at hEq
        have hd : d = d' := by injection hEq with h1 _; exact h1.symm
        rw [hd]
        exact ih (n / 10) (Nat.div_lt_self (by omega) (by omega))
          (by omega) d' ds' he

/-- The rest of the input after a printed number must not begin with a
character that the number regex/parser would keep consuming. -/
def numStop (rest : List Char) : Prop :=
  ∀ y ys, rest = y :: ys →
    y.isDigit = false ∧ ¬ (y = '.') ∧ ¬ (y = 'e') ∧ ¬ (y = 'E')

lemma takeDrop_stop {p : Char → Bool} {xs rest : List Char}
    (hxs : ∀ c ∈ xs, p c = true)
    (hrest : ∀ y ys, rest = y :: ys → p y = false) :
    (xs ++ rest).takeWhile p = xs ∧ (xs ++ rest).dropWhile p = rest := by
  cases rest with
  | nil =>
    rw [List.append_nil]
    constructor
    · exact takeWhile_all hxs
    · have := dropWhile_all_append ([] : List Char) hxs
      simpa using this
  | cons y ys =>
    exact ⟨takeWhile_append_stop ys hxs (hrest y ys rfl),
      dropWhile_append_stop ys hxs (hrest y ys rfl)⟩

lemma encodeNat_cons (m : Nat) : ∃ d ds, encodeNat m = d :: ds := by
  rcases he : encodeNat m with _ | ⟨d, ds⟩
  · exact absurd he (encodeNat_ne_nil m)
  · exact ⟨d, ds, rfl⟩

lemma encodeInt_shape (n : Int) :
    ∃ d t, encodeInt n = d :: t ∧ (d = '-' ∨ d.isDigit = true) := by
  unfold encodeInt
  by_cases h : n < 0
  · rw [if_pos h]
    exact ⟨'-', encodeNat n.natAbs, rfl, Or.inl rfl⟩
  · rw [if_neg h]
    obtain ⟨d, ds, he⟩ := encodeNat_cons n.natAbs
    refine ⟨d, ds, he, Or.inr ?_⟩
    exact encodeNat_all_digit n.natAbs d (he ▸ List.mem_cons_self d ds)

lemma head_facts {d : Char} (h : d = '-' ∨ d.isDigit = true) :
    jWS d = false ∧ ¬ (d = '{') ∧ ¬ (d = '[') ∧ ¬ (d = '"') ∧ ¬ (d = 't') ∧
      ¬ (d = 'f') ∧ ¬ (d = 'n') ∧ ¬ (d = ']') ∧ ¬ (d = ',') := by
  rcases h with h | h
  · subst h
    refine ⟨by decide, by decide, by decide, by decide, by decide, by decide,
      by decide, by decide, by decide⟩
  · exact ⟨digit_not_jWS h, digit_ne h (by decide), digit_ne h (by decide),
      digit_ne h (by decide), digit_ne h (by decide), digit_ne h (by decide),
      digit_ne h (by decide), digit_ne h (by decide), digit_ne h (by decide)⟩

lemma jNumBody_encodeNat (m : Nat) (rest : List Char) (h : numStop rest) :
    jNumBody (encodeNat m ++ rest) = some (encodeNat m, rest) := by
  have hstop : ∀ y ys, rest = y :: ys → Char.isDigit y = false :=
    fun y ys hy => (h y ys hy).1
  by_cases hm : m = 0
  · subst hm
    have h0 : encodeNat 0 = ['0'] := by rw [encodeNat_lt (by omega)]; rfl
    rw [h0]
    show jNumBody ('0' :: rest) = some (['0'], rest)
    simp [jNumBody]
  · obtain ⟨d, ds, hEq⟩ := encodeNat_cons m
    have hd0 : ¬ (d = '0') := encodeNat_head_ne_zero m (by omega) d ds hEq
    have hdig : d.isDigit = true :=
      encodeNat_all_digit m d (hEq ▸ List.mem_cons_self d ds)
    have hall : ∀ c ∈ (d :: ds), c.isDigit = true := fun c hc =>
      encodeNat_all_digit m c (hEq ▸ hc)
    obtain ⟨htake, hdrop⟩ := takeDrop_stop hall hstop
    rw [hEq, List.cons_append]
    show jNumBody (d :: (ds ++ rest)) = some (d :: ds, rest)
    simp only [jNumBody]
    rw [if_neg hd0, if_pos hdig, ← List.cons_append, htake, hdrop]

lemma jFrac_stop (rest : List Char) (h : numStop rest) : jFrac rest = ([], rest) := by
  cases rest with
  | nil => rfl
  | cons y ys =>
    obtain ⟨_, hdot, _, _⟩ := h y ys rfl
    simp [jFrac, hdot]

lemma jExp_stop (rest : List Char) (h : numStop rest) : jExp rest = (none, rest) := by
  cases rest with
  | nil => rfl
  | cons y ys =>
    obtain ⟨_, _, he, hE⟩ := h y ys rfl
    simp [jExp, he, hE]

lemma jNum_encodeInt (n : Int) (rest : List Char) (h : numStop rest) :
    jNum (encodeInt n ++ rest) = some (.int n, rest) := by
  have hbody := jNumBody_encodeNat n.natAbs rest h
  have hfrac := jFrac_stop rest h
  have hexp := jExp_stop rest h
  by_cases hn : n < 0
  · have hEq : encodeInt n = '-' :: encodeNat n.natAbs := by
      unfold encodeInt; rw [if_pos hn]
    rw [hEq, List.cons_append]
    show jNum ('-' :: (encodeNat n.natAbs ++ rest)) = some (.int n, rest)
    simp only [jNum]
    rw [if_pos trivial]
    simp only [hbody, hfrac, hexp]
    have : -1 * (digitsToNat (encodeNat n.natAbs) : Int) = n := by
      rw [digitsToNat_encodeNat]; omega
    rw [this]
  · have hEq : encodeInt n = encodeNat n.natAbs := by
      unfold encodeInt; rw [if_neg hn]
    obtain ⟨d, ds, hEnc⟩ := encodeNat_cons n.natAbs
    have hdig : d.isDigit = true :=
      encodeNat_all_digit n.natAbs d (hEnc ▸ List.mem_cons_self d ds)
    have hnd : ¬ (d = '-') := digit_ne hdig (by decide)
    rw [hEq, hEnc, List.cons_append]
    show jNum (d :: (ds ++ rest)) = some (.int n, rest)
    simp only [jNum]
    rw [if_neg hnd]
    rw [← List.cons_append, ← hEnc]
    simp only [hbody, hfrac, hexp]
    have : 1 * (digitsToNat (encodeNat n.natAbs) : Int) = n := by
      rw [digitsToNat_encodeNat]; omega
    rw [this]

lemma numStop_cons {c : Char} (r : List Char)
    (hc : c.isDigit = false ∧ ¬ (c = '.') ∧ ¬ (c = 'e') ∧ ¬ (c = 'E')) :
    numStop (c :: r) := by
  intro y ys h
  injection h with h1 _
  subst h1
  exact hc

lemma jValue_int (fuel : Nat) (sp : List Char) (n : Int) (rest : List Char)
    (hsp : ∀ c ∈ sp, jWS c = true) (h : numStop rest) :
    jValue (fuel + 1) (sp ++ (encodeInt n ++ rest)) = some (.int n, rest) := by
  obtain ⟨d, t, hEq, hd⟩ := encodeInt_shape n
  obtain ⟨hws, h1, h2, h3, h4, h5, h6, _, _⟩ := head_facts hd
  have hdrop : (sp ++ (encodeInt n ++ rest)).dropWhile jWS = d :: (t ++ rest) := by
    rw [dropWhile_all_append _ hsp, hEq, List.cons_append, List.dropWhile_cons, hws]
    simp
  have hback : d :: (t ++ rest) = encodeInt n ++ rest := by
    rw [hEq, List.cons_append]
  simp only [jValue, hdrop]
  simp only [h1, h2, h3, h4, h5, h6, if_false]
  rw [hback]
  exact jNum_encodeInt n rest h

lemma encodeInt_ne_nil (n : Int) : ¬ (encodeInt n = []) := by
  obtain ⟨d, t, hEq, _⟩ := encodeInt_shape n
  rw [hEq]; simp

lemma sepElems_length : ∀ (x : Int) (xs : List Int),
    (x :: xs).length ≤ (sepElems (x :: xs)).length := by
  intro x xs
  induction xs generalizing x with
  | nil =>
    show 1 ≤ (encodeInt x).length
    rcases he : encodeInt x with _ | ⟨d, t⟩
    · exact absurd he (encodeInt_ne_nil x)
    · simp
  | cons y ys ih =>
    have h1 : 1 ≤ (encodeInt x).length := by
      rcases he : encodeInt x with _ | ⟨d, t⟩
      · exact absurd he (encodeInt_ne_nil x)
      · simp
    have h2 := ih y
    show (x :: y :: ys).length ≤ (encodeInt x ++ ',' :: ' ' :: sepElems (y :: ys)).length
    simp only [List.length_append, List.length_cons] at *
    omega

lemma jArrElems_enc : ∀ (xs : List Int) (x : Int) (fuel : Nat) (sp rest : List Char),
    (∀ c ∈ sp, jWS c = true) → xs.length + 2 ≤ fuel →
    jArrElems fuel (sp ++ (sepElems (x :: xs) ++ (']' :: rest))) =
      some ((x :: xs).map PyVal.int, rest) := by
  intro xs
  induction xs with
  | nil =>
    intro x fuel sp rest hsp hfuel
    obtain ⟨f, rfl⟩ : ∃ f, fuel = f + 1 := ⟨fuel - 1, by omega⟩
    obtain ⟨f', rfl⟩ : ∃ f', f = f' + 1 := ⟨f - 1, by omega⟩
    have hv := jValue_int f' sp x (']' :: rest) hsp
      (numStop_cons rest ⟨by decide, by decide, by decide, by decide⟩)
    show jArrElems (f' + 1 + 1) (sp ++ (encodeInt x ++ (']' :: rest))) = _
    simp only [jArrElems, hv]
    simp [show jWS ']' = false from by decide, show ¬ (']' = ',') from by decide]
  | cons y ys ih =>
    intro x fuel sp rest hsp hfuel
    obtain ⟨f2, rfl⟩ : ∃ f2, fuel = f2 + 1 + 1 := ⟨fuel - 2, by simp at hfuel; omega⟩
    have hre : sp ++ (sepElems (x :: y :: ys) ++ (']' :: rest)) =
        sp ++ (encodeInt x ++ (',' :: ' ' :: (sepElems (y :: ys) ++ (']' :: rest)))) := by
      show sp ++ ((encodeInt x ++ ',' :: ' ' :: sepElems (y :: ys)) ++ (']' :: rest)) = _
      simp [List.append_assoc]
    rw [hre]
    have hv := jValue_int f2 sp x (',' :: ' ' :: (sepElems (y :: ys) ++ (']' :: rest))) hsp
      (numStop_cons _ ⟨by decide, by decide, by decide, by decide⟩)
    have hih : jArrElems (f2 + 1) (' ' :: (sepElems (y :: ys) ++ (']' :: rest))) =
        some ((y :: ys).map PyVal.int, rest) :=
      ih y (f2 + 1) [' '] rest (by intro c hc; simp at hc; rw [hc]; rfl)
        (by simp at hfuel ⊢; omega)
    conv_lhs => rw [jArrElems]
    rw [hv]
    have w1 : jWS ',' = false := by decide
    simp only [List.dropWhile_cons, w1, Bool.false_eq_true, if_false]
    simp only [hih]
    simp

lemma sepElems_shape (x : Int) (xs : List Int) :
    ∃ d t, sepElems (x :: xs) = d :: t ∧ (d = '-' ∨ d.isDigit = true) := by
  obtain ⟨d, t0, hEq, hd⟩ := encodeInt_shape x
  cases xs with
  | nil => exact ⟨d, t0, hEq, hd⟩
  | cons y ys =>
    refine ⟨d, t0 ++ ',' :: ' ' :: sepElems (y :: ys), ?_, hd⟩
    show encodeInt x ++ ',' :: ' ' :: sepElems (y :: ys) = _
    rw [hEq, List.cons_append]

lemma jValue_arr (l : List Int) (fuel : Nat) (hf : (sepElems l).length + 3 ≤ fuel) :
    jValue fuel (encodeIntList l) = some (.list (l.map PyVal.int), []) := by
  obtain ⟨f, rfl⟩ : ∃ f, fuel = f + 1 := ⟨fuel - 1, by omega⟩
  obtain ⟨f2, rfl⟩ : ∃ f2, f = f2 + 1 := ⟨f - 1, by omega⟩
  show jValue (f2 + 1 + 1) ('[' :: (sepElems l ++ [']'])) = _
  have hws : jWS '[' = false := by decide
  simp only [jValue, List.dropWhile_cons, hws, Bool.false_eq_true, if_false,
    show ¬ ('[' = '{') from by decide, show ('[' = '[') = True from by simp]
  simp only [if_true]
  cases l with
  | nil =>
    show jArr (f2 + 1) ([']'] : List Char) = _
    simp [jArr, show jWS ']' = false from by decide]
  | cons x xs =>
    obtain ⟨d, t, hEq, hd⟩ := sepElems_shape x xs
    obtain ⟨hdws, _, _, _, _, _, _, hrb, _⟩ := head_facts hd
    have hdrop : (sepElems (x :: xs) ++ [']']).dropWhile jWS = d :: (t ++ [']']) := by
      rw [hEq, List.cons_append, List.dropWhile_cons, hdws]
      simp
    show jArr (f2 + 1) (sepElems (x :: xs) ++ [']']) = _
    obtain ⟨f3, rfl⟩ : ∃ f3, f2 = f3 + 1 := by
      refine ⟨f2 - 1, ?_⟩
      have h1 := sepElems_length x xs
      simp at h1 hf
      omega
    have helems : jArrElems (f3 + 1) (d :: (t ++ [']'])) =
        some ((x :: xs).map PyVal.int, []) := by
      have h0 : d :: (t ++ [']']) = [] ++ (sepElems (x :: xs) ++ (']' :: [])) := by
        rw [hEq]; simp
      rw [h0]
      refine jArrElems_enc xs x (f3 + 1) [] [] (by intro c hc; simp at hc) ?_
      have h1 := sepElems_length x xs
      simp at h1 hf
      omega
    simp only [jArr, hdrop, hrb, if_false]
    rw [helems]

lemma pyJsonLoads_encodeIntList (l : List Int) :
    pyJsonLoads (encodeIntList l) = some (.list (l.map PyVal.int)) := by
  unfold pyJsonLoads
  have hlen : (encodeIntList l).length + 1 = (sepElems l).length + 3 := by
    simp [encodeIntList]
  rw [hlen, jValue_arr l _ (by omega)]
  rfl

lemma encodeInt_chars (n : Int) : ∀ c ∈ encodeInt n, c = '-' ∨ c.isDigit = true := by
  intro c hc
  unfold encodeInt at hc
  by_cases h : n < 0
  · rw [if_pos h] at hc
    rcases List.mem_cons.mp hc with h1 | h2
    · exact Or.inl h1
    · exact Or.inr (encodeNat_all_digit n.natAbs c h2)
  · rw [if_neg h] at hc
    exact Or.inr (encodeNat_all_digit n.natAbs c hc)

lemma sepElems_chars : ∀ (l : List Int), ∀ c ∈ sepElems l,
    c = '-' ∨ c.isDigit = true ∨ c = ',' ∨ c = ' ' := by
  intro l
  induction l with
  | nil => intro c hc; simp [sepElems] at hc
  | cons x xs ih =>
    intro c hc
    cases xs with
    | nil =>
      rcases encodeInt_chars x c hc with h | h
      · exact Or.inl h
      · exact Or.inr (Or.inl h)
    | cons y ys =>
      rw [show sepElems (x :: y :: ys) = encodeInt x ++ ',' :: ' ' :: sepElems (y :: ys)
          from rfl] at hc
      rcases List.mem_append.mp hc with h1 | h2
      · rcases encodeInt_chars x c h1 with h | h
        · exact Or.inl h
        · exact Or.inr (Or.inl h)
      · rcases List.mem_cons.mp h2 with h3 | h4
        · exact Or.inr (Or.inr (Or.inl h3))
        · rcases List.mem_cons.mp h4 with h5 | h6
          · exact Or.inr (Or.inr (Or.inr h5))
          · exact ih c h6

lemma sepElems_ne_rb (l : List Int) : ∀ c ∈ sepElems l, ¬ (c = ']') := by
  intro c hc
  rcases sepElems_chars l c hc with h | h | h | h
  · rw [h]; decide
  · exact digit_ne h (by decide)
  · rw [h]; decide
  · rw [h]; decide

lemma tryListMatch_headfail {c : Char} (hc : ¬ (c.toLower = 'w')) :
    ∀ t, tryListMatch (c :: t) = none := by
  intro t
  have hpat : "with arguments:".data = 'w' :: "ith arguments:".data := rfl
  have hne : ¬ (('w').toLower = c.toLower) := by
    rw [show ('w').toLower = 'w' from by decide]
    intro h
    exact hc h.symm
  unfold tryListMatch
  rw [hpat]
  simp only [matchLitCI, if_neg hne]

lemma searchToolName_argText (l : List Int) :
    searchToolName (argText l) = some ("add_numbers".data) := by
  have hre : argText l = "call_tool:".data ++
      ("add_numbers".data ++ (' ' :: ("with arguments:".data ++ ' ' :: encodeIntList l))) := by
    unfold argText
    simp [List.append_assoc]
  have htry : tryToolName (argText l) = some ("add_numbers".data) := by
    have ht : (("add_numbers".data ++ (' ' :: ("with arguments:".data ++ ' ' ::
        encodeIntList l)))).takeWhile isIdentChar = "add_numbers".data :=
      takeWhile_append_stop _ (by decide) (by decide)
    have hne : ¬ ("add_numbers".data = ([] : List Char)) := by decide
    simp only [tryToolName, hre, matchLit_append, ht, hne, if_false]
  exact searchPos_here htry

lemma listCapture_argText (l : List Int) :
    listCapture (argText l) = some (encodeIntList l) := by
  have hA : ∀ c ∈ ("call_tool:".data ++ "add_numbers".data ++ [' ']), ¬ (c.toLower = 'w') := by
    decide
  have hre : argText l = ("call_tool:".data ++ "add_numbers".data ++ [' ']) ++
      ("with arguments:".data ++ (' ' :: encodeIntList l)) := by
    unfold argText
    simp [List.append_assoc]
  unfold listCapture
  rw [hre, searchPos_skip _ (fun c hc t => tryListMatch_headfail (hA c hc) t)]
  have htry : tryListMatch ("with arguments:".data ++ (' ' :: encodeIntList l)) =
      some (encodeIntList l) := by
    have hd : (' ' :: encodeIntList l).dropWhile pyIsSpace =
        '[' :: (sepElems l ++ [']']) := by
      rw [List.dropWhile_cons]
      simp only [show pyIsSpace ' ' = true from by decide, if_true]
      show (('[' :: (sepElems l ++ [']'])) : List Char).dropWhile pyIsSpace = _
      rw [List.dropWhile_cons]
      simp [show pyIsSpace '[' = false from by decide]
    obtain ⟨htake, hdrop⟩ := @takeDrop_stop (fun c => ¬ (c = ']')) (sepElems l) [']']
      (by intro c hc; simpa using sepElems_ne_rb l c hc)
      (by intro y ys h; injection h with h1 _; subst h1; simp)
    simp only [tryListMatch, matchLitCI_append, hd, hdrop, htake]
    rfl
  rw [searchPos_here htry]

lemma listStyleArgs_argText (l : List Int) :
    listStyleArgs (argText l) = some (l.map PyVal.int) := by
  simp only [listStyleArgs, listCapture_argText, pyJsonLoads_encodeIntList]

lemma parse_tool_callL_marker {s nm : List Char} (h : searchToolName s = some nm) :
    parse_tool_callL s = (some (String.mk nm), some (extractArgs s)) := by
  cases s with
  | nil =>
    rw [show searchToolName ([] : List Char) = none from rfl] at h
    exact Option.noConfusion h
  | cons c cs =>
    simp only [parse_tool_callL, h]

lemma extractArgs_list {s : List Char} {xs : List PyVal}
    (h : listStyleArgs s = some xs) : extractArgs s = xs := by
  simp only [extractArgs, h]

lemma extractArgs_paren {s : List Char} {ys : List PyVal}
    (h1 : listStyleArgs s = none) (h2 : parenStyleArgs s = some ys) :
    extractArgs s = ys := by
  simp only [extractArgs, h1, h2]

lemma extractArgs_fallback {s : List Char}
    (h1 : listStyleArgs s = none) (h2 : parenStyleArgs s = none)
    (h3 : jsonObjStyleArgs s = none) :
    extractArgs s =
      if 2 ≤ (findNumbers s).length then (findNumbers s).map numToken else [] := by
  simp only [extractArgs, h1, h2, h3]

lemma searchToolName_eq_none {s : List Char} (h : hasToolMarker s = false) :
    searchToolName s = none := by
  induction s with
  | nil => rfl
  | cons c cs ih =>
    rw [hasToolMarker] at h
    rw [Bool.or_eq_false_iff] at h
    obtain ⟨h1, h2⟩ := h
    have hft : tryToolName (c :: cs) = none := by
      cases hm : matchLit "call_tool:".data (c :: cs) with
      | none => simp [tryToolName, hm]
      | some rest =>
        cases rest with
        | nil => simp [tryToolName, hm]
        | cons d ds =>
          have hid : isIdentChar d = false := by
            simpa only [markerAt, hm] using h1
          simp [tryToolName, hm, List.takeWhile_cons, hid]
    show searchPos tryToolName (c :: cs) = none
    rw [searchPos_cons_none hft]
    exact ih h2

/-- C1: for every input text with no occurrence of the marker pattern
`call_tool:<identifier>`, `parse_tool_call` classifies the text as a direct
answer — it returns no tool name and no arguments, regardless of any numeric
substrings, bracketed arrays, parenthesized lists, or JSON objects elsewhere
in the text; no argument-extraction strategy runs (the strategy chain is only
consulted after a marker is found). -/
theorem C1_marker_absent_direct_answer (s : String)
    (h : hasToolMarker s.data = false) : parse_tool_call s = (none, none) := by
  unfold parse_tool_call
  cases hs : s.data with
  | nil => rfl
  | cons c cs =>
    have h2 : searchToolName (c :: cs) = none := searchToolName_eq_none (hs ▸ h)
    simp only [parse_tool_callL, h2]

/-- C1 witness: a concrete marker-free text full of numerals, brackets and a
parenthesized pair is classified as a direct answer. -/
theorem C1_marker_absent_direct_answer_witness :
    hasToolMarker "please add [3, 5] and (7, 8) to 42 or 99".data = false ∧
      parse_tool_call "please add [3, 5] and (7, 8) to 42 or 99" = (none, none) :=
  ⟨by decide, C1_marker_absent_direct_answer _ (by decide)⟩

/-- C2: when the marker is present and both the bracketed-list strategy and
the parenthesized strategy would succeed, extraction returns the bracketed
array: strategy 2 precedes strategy 3 in the fixed priority order, and the
first successful strategy wins. -/
theorem C2_bracketed_priority (s nm : List Char) (xs ys : List PyVal)
    (h1 : searchToolName s = some nm) (h2 : listStyleArgs s = some xs)
    (_h3 : parenStyleArgs s = some ys) :
    parse_tool_callL s = (some (String.mk nm), some xs) := by
  rw [parse_tool_callL_marker h1, extractArgs_list h2]

/-- C2 witness: a text carrying both a valid bracketed array and a valid
parenthesized list extracts the bracketed one. -/
theorem C2_bracketed_priority_witness :
    parse_tool_callL
        "call_tool:add_numbers with arguments: [3, 5] or call_tool:add_numbers(7, 8)".data =
      (some "add_numbers", some [PyVal.int 3, PyVal.int 5]) :=
  C2_bracketed_priority _ "add_numbers".data [PyVal.int 3, PyVal.int 5]
    [PyVal.int 7, PyVal.int 8] rfl rfl rfl

/-- C3: for a well-formed JSON array literal captured after `with arguments:`
in a marker-bearing text, the extracted argument sequence is exactly the
JSON-parsed array (order and types preserved); encoding an arbitrary integer
array into that textual form and re-extracting yields the original sequence;
and when JSON parsing of the captured array fails, extraction falls through
to the next strategy instead of failing the whole extraction. -/
theorem C3_list_args_roundtrip :
    (∀ (s nm lit : List Char) (xs : List PyVal),
      searchToolName s = some nm → listCapture s = some lit →
      pyJsonLoads lit = some (PyVal.list xs) →
      parse_tool_callL s = (some (String.mk nm), some xs)) ∧
    (∀ l : List Int,
      parse_tool_callL (argText l) = (some "add_numbers", some (l.map PyVal.int))) ∧
    (∀ (s nm lit : List Char) (ys : List PyVal),
      searchToolName s = some nm → listCapture s = some lit →
      pyJsonLoads lit = none → parenStyleArgs s = some ys →
      parse_tool_callL s = (some (String.mk nm), some ys)) := by
  refine ⟨?_, ?_, ?_⟩
  · intro s nm lit xs h1 h2 h3
    have hl : listStyleArgs s = some xs := by
      simp only [listStyleArgs, h2, h3]
    rw [parse_tool_callL_marker h1, extractArgs_list hl]
  · intro l
    rw [parse_tool_callL_marker (searchToolName_argText l),
      extractArgs_list (listStyleArgs_argText l)]
  · intro s nm lit ys h1 h2 h3 h4
    have hl : listStyleArgs s = none := by
      simp only [listStyleArgs, h2, h3]
    rw [parse_tool_callL_marker h1, extractArgs_paren hl h4]

/-- C3 witness: a failing array literal (`[3, 5,]`) falls through to the
parenthesized strategy; the round-trip holds at `[3, 5]`; and a parsed
literal `[4, 9]` is extracted verbatim. -/
theorem C3_list_args_roundtrip_witness :
    parse_tool_callL
        "call_tool:add_numbers with arguments: [3, 5,] call_tool:add_numbers(7, 8)".data =
      (some "add_numbers", some [PyVal.int 7, PyVal.int 8]) ∧
    parse_tool_callL (argText [3, 5]) =
      (some "add_numbers", some [PyVal.int 3, PyVal.int 5]) ∧
    parse_tool_callL "call_tool:add_numbers with arguments: [4, 9]".data =
      (some "add_numbers", some [PyVal.int 4, PyVal.int 9]) :=
  ⟨C3_list_args_roundtrip.2.2 _ "add_numbers".data "[3, 5,]".data
      [PyVal.int 7, PyVal.int 8] rfl rfl rfl rfl,
    C3_list_args_roundtrip.2.1 [3, 5],
    C3_list_args_roundtrip.1 _ "add_numbers".data "[4, 9]".data
      [PyVal.int 4, PyVal.int 9] rfl rfl rfl⟩

/-- C4: for a marker-bearing text on which strategies 2-4 find no structured
argument list, the extractor scans the whole text for numeric substrings:
two or more of them become the argument sequence in left-to-right order of
appearance; fewer than two yield a zero-argument call, not an error.  In
particular `call_tool:add_numbers please add 3 and 5` yields `[3, 5]` and
`call_tool:get_current_time now` yields `[]`. -/
theorem C4_numeric_fallback :
    (∀ (s nm : List Char), searchToolName s = some nm → listStyleArgs s = none →
      parenStyleArgs s = none → jsonObjStyleArgs s = none →
      2 ≤ (findNumbers s).length →
      parse_tool_callL s = (some (String.mk nm), some ((findNumbers s).map numToken))) ∧
    (∀ (s nm : List Char), searchToolName s = some nm → listStyleArgs s = none →
      parenStyleArgs s = none → jsonObjStyleArgs s = none →
      (findNumbers s).length < 2 →
      parse_tool_callL s = (some (String.mk nm), some [])) ∧
    parse_tool_call "call_tool:add_numbers please add 3 and 5" =
      (some "add_numbers", some [PyVal.int 3, PyVal.int 5]) ∧
    parse_tool_call "call_tool:get_current_time now" = (some "get_current_time", some []) := by
  refine ⟨?_, ?_, rfl, rfl⟩
  · intro s nm h1 h2 h3 h4 h5
    rw [parse_tool_callL_marker h1, extractArgs_fallback h2 h3 h4, if_pos h5]
  · intro s nm h1 h2 h3 h4 h5
    rw [parse_tool_callL_marker h1, extractArgs_fallback h2 h3 h4, if_neg (by omega)]

/-- C4 witness: the general fallback clauses applied at concrete inputs with
three numerals and with a single numeral. -/
theorem C4_numeric_fallback_witness :
    parse_tool_callL "call_tool:do_stuff items 12 and 34 and 56".data =
      (some "do_stuff", some [PyVal.int 12, PyVal.int 34, PyVal.int 56]) ∧
    parse_tool_callL "call_tool:do_stuff only 7".data = (some "do_stuff", some []) :=
  ⟨C4_numeric_fallback.1 _ "do_stuff".data rfl rfl rfl rfl (by decide),
    C4_numeric_fallback.2.1 _ "do_stuff".data rfl rfl rfl rfl (by decide)⟩

/-- C5: coercion of a raw parenthesized token follows the fixed rule order:
a token containing a decimal point is parsed as a float; otherwise an
integer parse is attempted; any parse failure silently yields the token as a
string with surrounding quotes and spaces stripped — coercion never fails
outward.  Concretely `3` coerces to the integer 3, `3.5` to the float 3.5,
`abc` to the string `abc`, and a single-quoted `abc` to the string `abc`
with the quotes stripped, both standalone and through the whole extractor. -/
theorem C5_token_coercion :
    (∀ p : List Char, containsDot p = true → ∀ q, pyFloat p = some q →
      coerceToken p = .float q) ∧
    (∀ p : List Char, containsDot p = true → pyFloat p = none →
      coerceToken p = .str (String.mk (stripQuoteSpace p))) ∧
    (∀ p : List Char, containsDot p = false → ∀ n, pyInt p = some n →
      coerceToken p = .int n) ∧
    (∀ p : List Char, containsDot p = false → pyInt p = none →
      coerceToken p = .str (String.mk (stripQuoteSpace p))) ∧
    coerceToken "3".data = .int 3 ∧
    coerceToken "3.5".data = .float (7 / 2) ∧
    coerceToken "abc".data = .str "abc" ∧
    coerceToken (squote :: 'a' :: 'b' :: 'c' :: [squote]) = .str "abc" ∧
    parse_tool_callL ("call_tool:f(3, 3.5, abc, ".data ++
        squote :: 'a' :: 'b' :: 'c' :: squote :: ")".data) =
      (some "f", some [PyVal.int 3, PyVal.float (7 / 2), PyVal.str "abc", PyVal.str "abc"]) := by
  have hv : ratVal 1 ['3', '5'] 1 0 = 7 / 2 := by
    norm_num [ratVal, pow10, show digitsToNat ['3', '5'] = 35 from rfl]
  refine ⟨?_, ?_, ?_, ?_, rfl, ?_, rfl, rfl, ?_⟩
  · intro p h q h2
    simp [coerceToken, h, h2]
  · intro p h h2
    simp [coerceToken, h, h2]
  · intro p h n h2
    simp [coerceToken, h, h2]
  · intro p h h2
    simp [coerceToken, h, h2]
  · show coerceToken "3.5".data = PyVal.float (7 / 2)
    rw [show coerceToken "3.5".data = PyVal.float (ratVal 1 ['3', '5'] 1 0) from rfl, hv]
  · rw [show parse_tool_callL ("call_tool:f(3, 3.5, abc, ".data ++
        squote :: 'a' :: 'b' :: 'c' :: squote :: ")".data) =
      (some "f", some [PyVal.int 3, PyVal.float (ratVal 1 ['3', '5'] 1 0),
        PyVal.str "abc", PyVal.str "abc"]) from rfl, hv]

/-- C5 witness: the four coercion clauses applied at concrete tokens. -/
theorem C5_token_coercion_witness :
    coerceToken "9.75".data = .float (ratVal 1 ['9', '7', '5'] 2 0) ∧
    coerceToken "x.y".data = .str "x.y" ∧
    coerceToken "41".data = .int 41 ∧
    coerceToken "zz".data = .str "zz" :=
  ⟨C5_token_coercion.1 "9.75".data rfl (ratVal 1 ['9', '7', '5'] 2 0) rfl,
    C5_token_coercion.2.1 "x.y".data rfl rfl,
    C5_token_coercion.2.2.1 "41".data rfl 41 rfl,
    C5_token_coercion.2.2.2.1 "zz".data rfl rfl⟩

/-- C6: dispatch payload construction: an empty argument list sends no body
(`payload = None`); a non-empty list sends `{"args": args}`; and with at
least two arguments the payload additionally carries the convenience keys
`a = args[0]` and `b = args[1]` alongside `args`.  The end-to-end dispatch
of a two-argument call carries `args`, `a` and `b`, and a zero-argument
dispatch invokes the endpoint with no body. -/
theorem C6_payload_shape :
    buildPayload [] = none ∧
    (∀ x : PyVal, buildPayload [x] = some [("args", PyVal.list [x])]) ∧
    (∀ (x y : PyVal) (rest : List PyVal),
      buildPayload (x :: y :: rest) =
        some [("args", PyVal.list (x :: y :: rest)), ("a", x), ("b", y)]) ∧
    respondStep [⟨"add_numbers", "add two numbers", "/add_numbers"⟩]
        "call_tool:add_numbers(2, 3)" =
      .invokeTool "/add_numbers"
        (some [("args", PyVal.list [PyVal.int 2, PyVal.int 3]),
          ("a", PyVal.int 2), ("b", PyVal.int 3)]) ∧
    respondStep [⟨"get_current_time", "current time", "/get_current_time"⟩]
        "call_tool:get_current_time" =
      .invokeTool "/get_current_time" none :=
  ⟨rfl, fun _ => rfl, fun _ _ _ => rfl, rfl, rfl⟩

/-- C7: an extracted tool name that is not in the registry snapshot yields
the tool-not-found outcome: it is reported (a warning and `continue`), not
retried, and no tool endpoint invocation action is ever produced for that
turn. -/
theorem C7_unknown_tool (tools : List ToolInfo) (resp : String) (nm : String)
    (argsOpt : Option (List PyVal))
    (h1 : ¬ (resp.data = [])) (h2 : containsSub "call_tool:".data resp.data = true)
    (h3 : parse_tool_call resp = (some nm, argsOpt))
    (h4 : tools.find? (fun t => t.name = nm) = none) :
    respondStep tools resp = .toolNotFound nm ∧
      ∀ ep pl, ¬ (respondStep tools resp = .invokeTool ep pl) := by
  have hstep : respondStep tools resp = .toolNotFound nm := by
    unfold respondStep
    rw [if_pos ⟨h1, h2⟩]
    simp only [h3, h4]
  exact ⟨hstep, fun ep pl h => by rw [hstep] at h; exact TurnAction.noConfusion h⟩

/-- C7 witness: dispatching `myst_tool` against a registry holding only
`other_tool` reports the unknown tool and produces no invocation. -/
theorem C7_unknown_tool_witness :
    respondStep [⟨"other_tool", "something else", "/other"⟩] "call_tool:myst_tool now" =
      .toolNotFound "myst_tool" :=
  (C7_unknown_tool [⟨"other_tool", "something else", "/other"⟩] "call_tool:myst_tool now"
    "myst_tool" (some []) (by decide) rfl rfl rfl).1

/-- C8: a transport failure or non-success response from the tool endpoint
(any exception raised inside `call_tool`, abstracted as the oracle returning
an error) is caught and converted to the failure value `{"error": <cause>}`;
`call_tool` is a total function, so no fault propagates past it into the
session loop. -/
theorem C8_tool_error_caught
    (post : Option (List (String × PyVal)) → Except String PyVal)
    (payload : Option (List (String × PyVal))) (msg : String)
    (h : post payload = .error msg) :
    call_tool post payload = .dict [("error", .str msg)] := by
  unfold call_tool
  rw [h]

/-- C8 witness: a transport that always fails yields the error envelope. -/
theorem C8_tool_error_caught_witness :
    call_tool (fun _ => .error "connection timed out") none =
      .dict [("error", .str "connection timed out")] :=
  C8_tool_error_caught (fun _ => .error "connection timed out") none
    "connection timed out" rfl

/-- C9: when the discovery source is unreachable (the oracle reports an
error), registry load yields the empty tool list instead of crashing, and
the session still answers direct (marker-free) responses normally with an
empty registry. -/
theorem C9_registry_unavailable :
    (∀ msg : String, get_tools (.error msg) = .list []) ∧
    (∀ resp : String, containsSub "call_tool:".data resp.data = false →
      respondStep [] resp = .assistant resp) := by
  constructor
  · intro msg; rfl
  · intro resp h
    unfold respondStep
    rw [if_neg]
    rintro ⟨-, h2⟩
    rw [h] at h2
    exact Bool.noConfusion h2

/-- C9 witness: an unreachable registry yields zero tools, and a plain
greeting is still answered directly with the empty registry. -/
theorem C9_registry_unavailable_witness :
    get_tools (.error "discovery unreachable") = .list [] ∧
    respondStep [] "hello there" = .assistant "hello there" :=
  ⟨C9_registry_unavailable.1 "discovery unreachable",
    C9_registry_unavailable.2 "hello there" rfl⟩

/-- C10: the tool name and the arguments may come from different marker
occurrences: the name is captured at the first `call_tool:<identifier>`
occurrence while the parenthesized strategy matches the first
`call_tool:<identifier>(...)` occurrence anywhere, so
`call_tool:alpha then call_tool:beta(1, 2)` resolves to the name `alpha`
paired with the arguments `[1, 2]` taken from beta's parentheses. -/
theorem C10_name_and_args_from_different_markers :
    parse_tool_call "call_tool:alpha then call_tool:beta(1, 2)" =
      (some "alpha", some [PyVal.int 1, PyVal.int 2]) := rfl
